import Mathlib

/-!
Verification of the earthquake reservation-and-delivery pipeline (src/main.py).

The persistent store is a MongoDB collection with a unique index on the
field "id" (main.py line 66).  We embed it as an association list of
(id, document) pairs, and embed each pymongo call the program makes
(`find_one`, `update_one` with upsert, `replace_one` with upsert,
`delete_one`, `find`) with MongoDB's documented semantics:

  * a query touches the first matching document;
  * an upsert whose filter matches nothing inserts a document built from
    the filter's equality fields plus the `$set` fields, and that insert
    raises DuplicateKeyError when it would violate the unique index on
    "id";
  * `$lt` on an absent field is false; `$exists` is membership of a field.

Timestamps: the program stores `datetime.now(timezone.utc).isoformat()`
strings and compares them with `$lt`.  All such strings share the fixed
ISO-8601 UTC layout, on which lexicographic order agrees with
chronological order, so timestamps are embedded as integers (seconds)
compared with `<`.

External collaborators (the USGS feed, matplotlib rendering, the Telegram
API) are embedded as injected outcome data: each candidate carries the
success/failure its render call and its Telegram attempts would produce.
-/

namespace Quake

/-- `timedelta(minutes=3)` (main.py line 365), in seconds. -/
def STALENESS : Int := 3 * 60

/-- `MAX_RUN_TIME = 5 * 60` (main.py line 22), in seconds. -/
def MAX_RUN_TIME : Int := 5 * 60

/-- The payload written by `commit` — the `full_data` dict of main.py
lines 389-404, minus the `id` key (kept as the store key) and minus
`sentAt` (kept as a separate document field).  `p.get(...)` may be
absent, hence the `Option`s; the geometry coordinates are always
present. -/
structure EventFields where
  mag : Option ℚ
  place : Option String
  time : Option Int
  updated : Option Int
  url : Option String
  detail : Option String
  status : Option String
  tsunami : Option Int
  sig : Option Int
  net : Option String
  code : Option String
  latitude : ℚ
  longitude : ℚ
  depth : ℚ
deriving DecidableEq

/-- One document of the `quakes` collection.  A claim-only document has
`reserved_at` set and nothing else; a terminal document has `sentAt` and
the payload set and no `reserved_at` (the `replace_one` at line 407
drops it). -/
structure Doc where
  reserved_at : Option Int := none
  sentAt : Option Int := none
  payload : Option EventFields := none
deriving DecidableEq

/-- The collection, keyed by the "id" field. -/
abbrev Store := List (String × Doc)

/-- Whether any document carries the given id (the unique index on "id",
main.py line 66, forbids a second one being inserted). -/
def hasId (s : Store) (id : String) : Bool :=
  s.any (fun p => p.1 = id)

/-- Unique-index invariant: no two documents share an "id".  Enforced in
the program by `collection.create_index("id", unique=True)` (line 66). -/
def UniqueIds (s : Store) : Prop :=
  (s.map Prod.fst).Nodup

instance (s : Store) : Decidable (UniqueIds s) := by
  unfold UniqueIds; infer_instance

/-- First document with the given id (the semantics of a `find_one` on
`{"id": id}` alone). -/
def findDoc : Store → String → Option Doc
  | [], _ => none
  | (k, d) :: rest, id => if k = id then some d else findDoc rest id

/-- The `$or` part of the claim filter together with
`"sentAt": {"$exists": False}` (main.py lines 370-374): no `sentAt`, and
either no `reserved_at` or `reserved_at` strictly older than the
staleness cutoff.  `$lt` on an absent field is false. -/
def claimMatches (cutoff : Int) (d : Doc) : Bool :=
  d.sentAt.isNone &&
    (match d.reserved_at with
     | none => true
     | some r => decide (r < cutoff))

/-- The full `update_one` filter of main.py lines 368-375 applied to one
keyed document. -/
def claimFilter (id : String) (cutoff : Int) (p : String × Doc) : Bool :=
  p.1 = id && claimMatches cutoff p.2

/-- `update_one` updates the first document matching the filter. -/
def updateMatching : Store → (String × Doc → Bool) → (Doc → Doc) → Store
  | [], _, _ => []
  | (k, d) :: rest, q, f =>
      if q (k, d) then (k, f d) :: rest
      else (k, d) :: updateMatching rest q f

/-- Outcome of the claiming `update_one` (main.py lines 367-378):
either it matched and updated an existing document (`matched_count > 0`),
or it inserted a fresh one (`upserted_id is not None`), or the upsert
insert collided with the unique index on "id" and pymongo raised
`DuplicateKeyError`. -/
inductive ClaimResult where
  | matched (s : Store)
  | upserted (s : Store)
  | dupKey
deriving DecidableEq

/-- The atomic claim operation: `collection.update_one(filter, {"$set":
{"reserved_at": now}}, upsert=True)` of main.py lines 367-378, with
`cutoff = now - timedelta(minutes=3)`.  If no document matches the
filter, the upsert inserts `{"id": id, "reserved_at": now}` (the
filter's only equality field plus the `$set`); when a document with the
same id already exists this insert violates the unique index and the
call raises `DuplicateKeyError` instead of reporting `matched_count =
0`. -/
def tryClaim (s : Store) (id : String) (now : Int) : ClaimResult :=
  if s.any (claimFilter id (now - STALENESS)) then
    .matched (updateMatching s (claimFilter id (now - STALENESS))
      (fun d => { d with reserved_at := some now }))
  else if hasId s id then .dupKey
  else .upserted (s ++ [(id, { reserved_at := some now })])

/-- The success test the program applies to the claim:
`result.matched_count > 0 or result.upserted_id is not None`
(main.py line 380).  A raised `DuplicateKeyError` never reaches it. -/
def claimOk : ClaimResult → Bool
  | .matched _ => true
  | .upserted _ => true
  | .dupKey => false

/-- The store as left behind by one claim attempt (a `DuplicateKeyError`
leaves the store unchanged). -/
def claimStore (s : Store) (id : String) (now : Int) : Store :=
  match tryClaim s id now with
  | .matched s' => s'
  | .upserted s' => s'
  | .dupKey => s

/-- `replace_one({"id": id}, doc, upsert=True)`: replace the first
document with this id, or append a fresh one. -/
def replaceOne : Store → String → Doc → Store
  | [], id, d => [(id, d)]
  | (k, old) :: rest, id, d =>
      if k = id then (k, d) :: rest
      else (k, old) :: replaceOne rest id d

/-- The terminal commit of main.py lines 389-407:
`collection.replace_one({"id": i["id"]}, full_data, upsert=True)` where
`full_data` is the payload plus `sentAt = now`. -/
def commit (s : Store) (id : String) (f : EventFields) (now : Int) : Store :=
  replaceOne s id { reserved_at := none, sentAt := some now, payload := some f }

/-- `collection.delete_one({"id": id, "sentAt": {"$exists": False}})`
(main.py lines 299 and 419): delete the first document with this id and
no `sentAt`; a terminal document never matches. -/
def releaseClaim : Store → String → Store
  | [], _ => []
  | (k, d) :: rest, id =>
      if k = id && d.sentAt.isNone then rest
      else (k, d) :: releaseClaim rest id

/-- `collection.find_one({"id": id, "sentAt": {"$exists": True}}) is not
None` (main.py lines 353-356). -/
def isDelivered (s : Store) (id : String) : Bool :=
  s.any (fun p => p.1 = id && p.2.sentAt.isSome)

/-- `set(doc["id"] for doc in collection.find({"sentAt": {"$exists":
True}}, {"id": 1}))` (main.py lines 314-316), as the list of matching
ids. -/
def loadDeliveredIds (s : Store) : List String :=
  (s.filter (fun p => p.2.sentAt.isSome)).map (fun p => p.1)

/-- `cleanup_reserved` (main.py lines 297-303): release every id the
instance still holds a claim on. -/
def cleanup_reserved (s : Store) : List String → Store
  | [] => s
  | rid :: rest => cleanup_reserved (releaseClaim s rid) rest

/-- Result of `sendToTelegram`: whether a POST eventually reported
`ok`, and the total seconds spent in `time.sleep(2)` calls. -/
structure SendResult where
  delivered : Bool
  sleptSeconds : Nat
deriving DecidableEq

/-- The retry loop of `sendToTelegram` (main.py lines 148-175):
`attempt` counts from 0; the loop body runs while `attempt < retries`;
a successful attempt returns at once, a failed one sleeps two seconds
and retries.  `ok n` is whether the Telegram API accepts attempt `n`
(the external collaborator's behaviour).  The fuel argument is
`retries - attempt`; exhausting it falls out of the loop, where the
function raises (`delivered = false`, main.py line 181). -/
def sendLoop (ok : Nat → Bool) (attempt : Nat) : Nat → SendResult
  | 0 => { delivered := false, sleptSeconds := 0 }
  | fuel + 1 =>
      if ok attempt then { delivered := true, sleptSeconds := 0 }
      else
        let r := sendLoop ok (attempt + 1) fuel
        { r with sleptSeconds := r.sleptSeconds + 2 }

/-- `sendToTelegram(i, retries=5)` (main.py line 123), with the
per-attempt API outcomes injected. -/
def sendToTelegram (ok : Nat → Bool) (retries : Nat) : SendResult :=
  sendLoop ok 0 retries

/-- The in-memory state `main()` threads through the candidate loop:
`sent_ids` (line 314), `reserved_ids` (line 307) and the shared
collection. -/
structure MState where
  sentIds : List String
  reservedIds : List String
  store : Store

/-- Observable outcome of one candidate's iteration of the loop at
main.py lines 334-434. -/
inductive CandOutcome where
  | notEarthquake   -- line 336: `continue`
  | skippedMem      -- lines 346-351: id in the in-memory sent set
  | skippedDb       -- lines 353-362: terminal record found in the store
  | processedOk     -- lines 382-413: rendered, sent and committed
  | eventFailed     -- lines 414-420: render or delivery raised; claim released
  | batchError      -- line 367 raised DuplicateKeyError, outside the try block
deriving DecidableEq

/-- One candidate of the feed, with every ambient input of its loop
iteration injected: the wall-clock values the iteration reads, and the
outcomes its external render and Telegram calls would produce. -/
structure Candidate where
  id : String
  isEarthquake : Bool      -- properties["type"] == "earthquake" (line 335)
  now : Int                -- datetime.now(timezone.utc) at line 364
  renderOk : Bool          -- whether plot_offline_map (line 387) succeeds
  sendOk : Nat → Bool      -- Telegram outcome of each attempt (line 388)
  fields : EventFields     -- the payload of full_data (lines 389-404)
  sentNow : Int            -- datetime.now(timezone.utc) at line 405
  elapsedAfter : Int       -- time.time() - startTime at line 429

/-- The `try` block of main.py lines 382-420, entered after a
successful claim: render, send, and on success commit and update the
in-memory sets; on any exception delete the claim-only record and drop
the id from `reserved_ids`. -/
def processClaimed (st : MState) (c : Candidate) : MState × CandOutcome :=
  if c.renderOk && (sendToTelegram c.sendOk 5).delivered then
    ({ st with
        store := commit st.store c.id c.fields c.sentNow,
        sentIds := st.sentIds.insert c.id,
        reservedIds := st.reservedIds.erase c.id }, .processedOk)
  else
    ({ st with
        store := releaseClaim st.store c.id,
        reservedIds := st.reservedIds.erase c.id }, .eventFailed)

/-- One candidate's pass through main.py lines 346-425 (the earthquake
type test of line 335 is handled by the loop): skip if already known
sent, re-check the store, attempt the claim, then run the try block.
A `DuplicateKeyError` from the claim is raised before the `try` of
line 382 and so escapes `main()` entirely (`batchError`). -/
def processCandidate (st : MState) (c : Candidate) : MState × CandOutcome :=
  if c.id ∈ st.sentIds then (st, .skippedMem)
  else if isDelivered st.store c.id then
    ({ st with sentIds := st.sentIds.insert c.id }, .skippedDb)
  else
    match tryClaim st.store c.id c.now with
    | .dupKey => (st, .batchError)
    | .matched s' =>
        processClaimed
          { st with store := s', reservedIds := st.reservedIds.insert c.id } c
    | .upserted s' =>
        processClaimed
          { st with store := s', reservedIds := st.reservedIds.insert c.id } c

/-- The candidate loop of main.py lines 334-434.  `continue` at lines
336, 351 and 362 jumps straight to the next candidate, bypassing the
time check of lines 429-434; only iterations that reached the claim
attempt fall through to that check.  A raised `DuplicateKeyError`
aborts the loop (and `main()`).  Returns the final state and one
outcome per candidate iteration that ran. -/
def runBatch (st : MState) (isLocal : Bool) : List Candidate → MState × List CandOutcome
  | [] => (st, [])
  | c :: rest =>
      if !c.isEarthquake then
        let (st'', os) := runBatch st isLocal rest
        (st'', .notEarthquake :: os)
      else
        let (st', o) := processCandidate st c
        if o = .batchError then (st', [o])
        else if o = .skippedMem ∨ o = .skippedDb then
          let (st'', os) := runBatch st' isLocal rest
          (st'', o :: os)
        else if !isLocal && MAX_RUN_TIME ≤ c.elapsedAfter then (st', [o])
        else
          let (st'', os) := runBatch st' isLocal rest
          (st'', o :: os)

/-- Modelled from the spec: the candidate loop as §5 of the spec
describes its cancellation ("the time budget is checked between
candidates"), i.e. with the budget check at every candidate boundary,
skipped candidates included.  Used only to compare against `runBatch`,
which is translated from the code. -/
def runBatchSpecBudget (st : MState) (isLocal : Bool) : List Candidate → MState × List CandOutcome
  | [] => (st, [])
  | c :: rest =>
      if !c.isEarthquake then
        if !isLocal && MAX_RUN_TIME ≤ c.elapsedAfter then (st, [.notEarthquake])
        else
          let (st'', os) := runBatchSpecBudget st isLocal rest
          (st'', .notEarthquake :: os)
      else
        let (st', o) := processCandidate st c
        if o = .batchError then (st', [o])
        else if !isLocal && MAX_RUN_TIME ≤ c.elapsedAfter then (st', [o])
        else
          let (st'', os) := runBatchSpecBudget st' isLocal rest
          (st'', o :: os)

/-- The top-level loop of main.py lines 446-464, abstracted over the
cycle outcomes: each scheduled cycle is a pair of the value
`time.time() - startTime` would have at the `while` test and whether
`main()` returns normally (`true`) or raises (`false`).  `retries` is
the failure counter (line 446); note the code increments it on every
failure and never resets it on success.  Returns how many cycles
actually ran. -/
def runTop (isLocal : Bool) (retries : Nat) : List (Int × Bool) → Nat
  | [] => 0
  | (elapsed, ok) :: rest =>
      if !isLocal && MAX_RUN_TIME ≤ elapsed then 0
      else if ok then 1 + runTop isLocal retries rest
      else if 3 ≤ retries + 1 then 1
      else 1 + runTop isLocal (retries + 1) rest

/-- Modelled from the spec: the top-level loop as §4.3 of the spec
describes it ("stops entirely after 3 consecutive unhandled failures"),
i.e. with the failure counter reset to zero by every successful cycle.
Used only to compare against `runTop`, which is translated from the
code. -/
def runTopSpecConsecutive (isLocal : Bool) (retries : Nat) : List (Int × Bool) → Nat
  | [] => 0
  | (elapsed, ok) :: rest =>
      if !isLocal && MAX_RUN_TIME ≤ elapsed then 0
      else if ok then 1 + runTopSpecConsecutive isLocal 0 rest
      else if 3 ≤ retries + 1 then 1
      else 1 + runTopSpecConsecutive isLocal (retries + 1) rest

/-- A Python float magnitude as `earthquake_emoji` consumes it: NaN,
an infinity, or a finite value (every finite IEEE-754 double is a
rational; the thresholds 0, 2, …, 9 are exactly representable). -/
inductive Mag where
  | nan
  | ninf
  | val (q : ℚ)
  | inf
deriving DecidableEq

/-- IEEE-754 `<` between a magnitude and a finite threshold: every
comparison with NaN is false. -/
def Mag.flt : Mag → ℚ → Bool
  | .nan, _ => false
  | .ninf, _ => true
  | .val q, c => decide (q < c)
  | .inf, _ => false

/-- `earthquake_emoji` (main.py lines 102-120; identical in test.py
lines 17-34). -/
def earthquake_emoji (m : Mag) : String :=
  if m.flt 0 then "❓"
  else if m.flt 2 then "🟢"
  else if m.flt 4 then "🟡"
  else if m.flt 5 then "🟠"
  else if m.flt 6 then "🔴"
  else if m.flt 7 then "💥"
  else if m.flt 8 then "🌋"
  else if m.flt 9 then "🌎💥"
  else "🌎💥🌊"

/-- The nine strings `earthquake_emoji` can return. -/
def emojiRange : List String :=
  ["❓", "🟢", "🟡", "🟠", "🔴", "💥", "🌋", "🌎💥", "🌎💥🌊"]

/-- A sequence of `tryClaim` attempts on one id at the given times,
with no intervening commit or release; counts how many succeed in the
sense of main.py line 380 (a raised `DuplicateKeyError` leaves the
store unchanged and counts as no success). -/
def runClaims : Store → String → List Int → Nat
  | _, _, [] => 0
  | s, id, t :: ts =>
      match tryClaim s id t with
      | .matched s' => 1 + runClaims s' id ts
      | .upserted s' => 1 + runClaims s' id ts
      | .dupKey => runClaims s id ts

/-- A store operation of a history: a claim attempt or a terminal
commit. -/
inductive StoreOp where
  | claimOp (t : Int)
  | commitOp (f : EventFields) (t : Int)

/-- Apply one keyed store operation. -/
def applyOp (s : Store) : String × StoreOp → Store
  | (id, .claimOp t) => claimStore s id t
  | (id, .commitOp f t) => commit s id f t

/-- Run a history of store operations in order. -/
def runOps : Store → List (String × StoreOp) → Store
  | s, [] => s
  | s, op :: ops => runOps (applyOp s op) ops

/-- The ids committed by a history, in order. -/
def commitIds : List (String × StoreOp) → List String
  | [] => []
  | (id, .commitOp _ _) :: ops => id :: commitIds ops
  | (_, .claimOp _) :: ops => commitIds ops

/-- A concrete payload used for evaluating the model on concrete
inputs. -/
def sampleFields : EventFields :=
  { mag := some 5, place := some "Somewhere", time := some 0,
    updated := none, url := none, detail := none, status := some "reviewed",
    tsunami := some 0, sig := none, net := none, code := none,
    latitude := 10, longitude := 20, depth := 7 }

/-- A history for evaluating the delivered-set claim: commits for
`"b"` and `"c"` interleaved with claim-only operations. -/
def sampleOps : List (String × StoreOp) :=
  [("a", .claimOp 0), ("b", .commitOp sampleFields 5),
    ("b", .claimOp 10), ("c", .commitOp sampleFields 7)]

/-- A store holding one terminal record for the id `"us1000abcd"`. -/
def terminalStore : Store :=
  [("us1000abcd", { sentAt := some 0, payload := some sampleFields })]

/-- A store holding one live (fresh) claim on the id `"us1000abcd"`. -/
def liveStore : Store :=
  [("us1000abcd", { reserved_at := some 1000 })]

/-- A candidate whose render succeeds but whose five Telegram attempts
all fail. -/
def failCand : Candidate :=
  { id := "us1000abcd", isEarthquake := true, now := 1000,
    renderOk := true, sendOk := fun _ => false, fields := sampleFields,
    sentNow := 1010, elapsedAfter := 0 }

/-- A candidate that renders and delivers successfully on the first
attempt. -/
def okCand : Candidate :=
  { id := "ev2", isEarthquake := true, now := 1000,
    renderOk := true, sendOk := fun _ => true, fields := sampleFields,
    sentNow := 1010, elapsedAfter := 0 }

/-- A candidate whose id is already terminal in `lateStore` and whose
iteration ends with the wall clock at 400 s, past the 300 s budget. -/
def lateSkipCand : Candidate :=
  { id := "done1", isEarthquake := true, now := 1000,
    renderOk := true, sendOk := fun _ => true, fields := sampleFields,
    sentNow := 1010, elapsedAfter := 400 }

/-- Store for the budget-check counterexample: the first candidate's id
is already delivered. -/
def lateStore : Store :=
  [("done1", { sentAt := some 0, payload := some sampleFields })]

/-- Initial in-memory state over `lateStore`. -/
def lateState : MState :=
  { sentIds := [], reservedIds := [], store := lateStore }

/-- Initial in-memory state over an empty store. -/
def emptyState : MState :=
  { sentIds := [], reservedIds := [], store := [] }

/-- Cycle schedule with failures on cycles 1, 3 and 5 and successes in
between: three cumulative but never three consecutive failures. -/
def alternatingCycles : List (Int × Bool) :=
  [(0, false), (0, true), (0, false), (0, true), (0, false), (0, true)]

/-! ### Basic store lemmas -/

theorem findDoc_none_iff (s : Store) (id : String) :
    findDoc s id = none ↔ hasId s id = false := by
  induction s with
  | nil => simp [findDoc, hasId]
  | cons p rest ih =>
      obtain ⟨k, d⟩ := p
      by_cases hk : k = id
      · subst hk; simp [findDoc, hasId]
      · simp [findDoc, hasId, hk] at ih ⊢
        exact ih

theorem findDoc_append_left_none {s : Store} {id : String}
    (h : findDoc s id = none) (l : Store) :
    findDoc (s ++ l) id = findDoc l id := by
  induction s with
  | nil => rfl
  | cons p rest ih =>
      obtain ⟨k, d⟩ := p
      by_cases hk : k = id
      · simp [findDoc, hk] at h
      · simp [findDoc, hk] at h ⊢
        exact ih h

theorem updateMatching_map_fst (s : Store) (q : String × Doc → Bool)
    (f : Doc → Doc) :
    (updateMatching s q f).map Prod.fst = s.map Prod.fst := by
  induction s with
  | nil => rfl
  | cons p rest ih =>
      obtain ⟨k, d⟩ := p
      by_cases hq : q (k, d)
      · simp [updateMatching, hq]
      · simp [updateMatching, hq, ih]

theorem uniqueIds_updateMatching {s : Store} (h : UniqueIds s)
    (q : String × Doc → Bool) (f : Doc → Doc) :
    UniqueIds (updateMatching s q f) := by
  unfold UniqueIds at h ⊢
  rwa [updateMatching_map_fst]

theorem uniqueIds_append_fresh {s : Store} {id : String} (d : Doc)
    (h : UniqueIds s) (hfree : hasId s id = false) :
    UniqueIds (s ++ [(id, d)]) := by
  unfold UniqueIds at h ⊢
  simp only [List.map_append, List.map_cons, List.map_nil]
  rw [List.nodup_append]
  refine ⟨h, List.nodup_singleton _, ?_⟩
  intro a ha hb
  simp only [List.mem_singleton] at hb
  subst hb
  simp only [List.mem_map] at ha
  obtain ⟨p, hp, hfst⟩ := ha
  simp [hasId, List.any_eq_true] at hfree
  exact hfree p.1 p.2 hp hfst

theorem findDoc_of_mem_uniq {s : Store} {id : String} {d : Doc}
    (h : UniqueIds s) (hmem : (id, d) ∈ s) : findDoc s id = some d := by
  induction s with
  | nil => simp at hmem
  | cons p rest ih =>
      obtain ⟨k, e⟩ := p
      unfold UniqueIds at h
      simp only [List.map_cons, List.nodup_cons] at h
      rcases List.mem_cons.mp hmem with heq | hrest
      · injection heq with h1 h2
        subst h1; subst h2
        simp [findDoc]
      · by_cases hk : k = id
        · exfalso
          subst hk
          exact h.1 (List.mem_map.mpr ⟨(k, d), hrest, rfl⟩)
        · simp only [findDoc, hk, if_false]
          exact ih h.2 hrest

/-! ### Characterizing the claiming update -/

theorem any_claimFilter_of_match {s : Store} {i : String} {d : Doc} {T : Int}
    (hfind : findDoc s i = some d) (hm : claimMatches T d = true) :
    s.any (claimFilter i T) = true := by
  induction s with
  | nil => simp [findDoc] at hfind
  | cons p rest ih =>
      obtain ⟨k, e⟩ := p
      by_cases hk : k = i
      · subst hk
        simp [findDoc] at hfind
        subst hfind
        simp [claimFilter, hm]
      · simp [findDoc, hk] at hfind
        simp [claimFilter, hk, ih hfind]

theorem findDoc_updateMatching_of_match {s : Store} {i : String} {d : Doc}
    {T : Int} (hfind : findDoc s i = some d) (hm : claimMatches T d = true)
    (f : Doc → Doc) :
    findDoc (updateMatching s (claimFilter i T) f) i = some (f d) := by
  induction s with
  | nil => simp [findDoc] at hfind
  | cons p rest ih =>
      obtain ⟨k, e⟩ := p
      by_cases hk : k = i
      · subst hk
        simp [findDoc] at hfind
        subst hfind
        have hq : claimFilter k T (k, e) = true := by simp [claimFilter, hm]
        simp [updateMatching, hq, findDoc]
      · have hq : claimFilter i T (k, e) = false := by simp [claimFilter, hk]
        simp [findDoc, hk] at hfind
        simp [updateMatching, hq, findDoc, hk, ih hfind]

theorem any_claimFilter_false_of_hasId_false {s : Store} {i : String}
    {T : Int} (h : hasId s i = false) : s.any (claimFilter i T) = false := by
  unfold hasId at h
  rw [List.any_eq_false] at h ⊢
  intro p hp
  have hne := h p hp
  simp only [decide_eq_true_eq] at hne
  simp [claimFilter, hne]

theorem any_claimFilter_false_of_no_match {s : Store} {i : String} {d : Doc}
    {T : Int} (huniq : UniqueIds s) (hfind : findDoc s i = some d)
    (hm : claimMatches T d = false) : s.any (claimFilter i T) = false := by
  induction s with
  | nil => simp
  | cons p rest ih =>
      obtain ⟨k, e⟩ := p
      unfold UniqueIds at huniq
      simp only [List.map_cons, List.nodup_cons] at huniq
      by_cases hk : k = i
      · subst hk
        simp [findDoc] at hfind
        subst hfind
        have hrest : hasId rest k = false := by
          unfold hasId
          rw [List.any_eq_false]
          intro p hp
          simp only [decide_eq_true_eq]
          intro hfst
          exact huniq.1 (List.mem_map.mpr ⟨p, hp, hfst⟩)
        simp [claimFilter, hm, any_claimFilter_false_of_hasId_false hrest]
      · simp [findDoc, hk] at hfind
        simp [claimFilter, hk, ih huniq.2 hfind]

theorem tryClaim_upsert {s : Store} {i : String} (now : Int)
    (h : hasId s i = false) :
    tryClaim s i now = .upserted (s ++ [(i, { reserved_at := some now })]) := by
  simp [tryClaim, any_claimFilter_false_of_hasId_false h, h]

theorem tryClaim_matched {s : Store} {i : String} {d : Doc} {now : Int}
    (hfind : findDoc s i = some d)
    (hm : claimMatches (now - STALENESS) d = true) :
    tryClaim s i now =
      .matched (updateMatching s (claimFilter i (now - STALENESS))
        (fun e => { e with reserved_at := some now })) := by
  simp [tryClaim, any_claimFilter_of_match hfind hm]

theorem tryClaim_dupKey {s : Store} {i : String} {d : Doc} {now : Int}
    (huniq : UniqueIds s) (hfind : findDoc s i = some d)
    (hm : claimMatches (now - STALENESS) d = false) :
    tryClaim s i now = .dupKey := by
  have hany := any_claimFilter_false_of_no_match huniq hfind hm
  have hhas : hasId s i = true := by
    by_contra hc
    rw [Bool.not_eq_true] at hc
    rw [(findDoc_none_iff s i).mpr hc] at hfind
    exact Option.noConfusion hfind
  simp [tryClaim, hany, hhas]

theorem findDoc_claimStore_matched {s : Store} {i : String} {d : Doc}
    {now : Int} (hfind : findDoc s i = some d)
    (hm : claimMatches (now - STALENESS) d = true) :
    findDoc (claimStore s i now) i = some { d with reserved_at := some now } := by
  rw [claimStore, tryClaim_matched hfind hm]
  exact findDoc_updateMatching_of_match hfind hm _

/-! ### Release, delivery-check and commit lemmas -/

theorem hasId_releaseClaim_false {s : Store} {i : String} {d : Doc}
    (huniq : UniqueIds s) (hfind : findDoc s i = some d)
    (hsent : d.sentAt = none) :
    hasId (releaseClaim s i) i = false := by
  induction s with
  | nil => simp [findDoc] at hfind
  | cons p rest ih =>
      obtain ⟨k, e⟩ := p
      unfold UniqueIds at huniq
      simp only [List.map_cons, List.nodup_cons] at huniq
      by_cases hk : k = i
      · subst hk
        simp [findDoc] at hfind
        subst hfind
        have hcond : (k = k && e.sentAt.isNone) = true := by simp [hsent]
        rw [releaseClaim, if_pos hcond]
        unfold hasId
        rw [List.any_eq_false]
        intro p hp
        simp only [decide_eq_true_eq]
        intro hfst
        exact huniq.1 (List.mem_map.mpr ⟨p, hp, hfst⟩)
      · have hcond : (k = i && e.sentAt.isNone) = false := by simp [hk]
        rw [releaseClaim, if_neg (by simp [hcond])]
        simp [findDoc, hk] at hfind
        simp only [hasId, List.any_cons]
        have := ih huniq.2 hfind
        unfold hasId at this
        simp [hk, this]

theorem mem_releaseClaim_of_terminal {s : Store} {i k : String} {d : Doc}
    (hmem : (k, d) ∈ s) (hsent : d.sentAt ≠ none) :
    (k, d) ∈ releaseClaim s i := by
  induction s with
  | nil => simp at hmem
  | cons p rest ih =>
      obtain ⟨k', e⟩ := p
      by_cases hc : (k' = i && e.sentAt.isNone) = true
      · rw [releaseClaim, if_pos hc]
        rcases List.mem_cons.mp hmem with heq | hrest
        · exfalso
          injection heq with h1 h2
          subst h2
          simp only [Bool.and_eq_true, decide_eq_true_eq] at hc
          exact hsent (Option.isNone_iff_eq_none.mp hc.2)
        · exact hrest
      · rw [releaseClaim, if_neg hc]
        rcases List.mem_cons.mp hmem with heq | hrest
        · exact heq ▸ List.mem_cons_self _ _
        · exact List.mem_cons_of_mem _ (ih hrest)

theorem releaseClaim_eq_self {s : Store} {i : String}
    (h : ∀ d, (i, d) ∈ s → d.sentAt ≠ none) : releaseClaim s i = s := by
  induction s with
  | nil => rfl
  | cons p rest ih =>
      obtain ⟨k, e⟩ := p
      have hc : (k = i && e.sentAt.isNone) = false := by
        by_cases hk : k = i
        · subst hk
          have hne := h e (List.mem_cons_self _ _)
          cases hsa : e.sentAt with
          | none => exact absurd hsa hne
          | some v => simp [hsa]
        · simp [hk]
      rw [releaseClaim, if_neg (by simp [hc])]
      rw [ih (fun d hd => h d (List.mem_cons_of_mem _ hd))]

theorem isDelivered_false_of_hasId_false {s : Store} {i : String}
    (h : hasId s i = false) : isDelivered s i = false := by
  unfold hasId at h
  unfold isDelivered
  rw [List.any_eq_false] at h ⊢
  intro p hp
  have hne := h p hp
  simp only [decide_eq_true_eq] at hne
  simp [hne]

theorem isDelivered_true_of_findDoc {s : Store} {i : String} {d : Doc}
    (hfind : findDoc s i = some d) (hsent : d.sentAt.isSome = true) :
    isDelivered s i = true := by
  induction s with
  | nil => simp [findDoc] at hfind
  | cons p rest ih =>
      obtain ⟨k, e⟩ := p
      by_cases hk : k = i
      · subst hk
        simp [findDoc] at hfind
        subst hfind
        simp [isDelivered, hsent]
      · simp [findDoc, hk] at hfind
        simp [isDelivered, hk] at ih ⊢
        exact ih hfind

theorem replaceOne_idem (s : Store) (i : String) (d : Doc) :
    replaceOne (replaceOne s i d) i d = replaceOne s i d := by
  induction s with
  | nil => simp [replaceOne]
  | cons p rest ih =>
      obtain ⟨k, e⟩ := p
      by_cases hk : k = i
      · simp [replaceOne, hk]
      · simp [replaceOne, hk, ih]

theorem findDoc_replaceOne_self (s : Store) (i : String) (d : Doc) :
    findDoc (replaceOne s i d) i = some d := by
  induction s with
  | nil => simp [replaceOne, findDoc]
  | cons p rest ih =>
      obtain ⟨k, e⟩ := p
      by_cases hk : k = i
      · simp [replaceOne, hk, findDoc]
      · simp [replaceOne, hk, findDoc, ih]

theorem sendLoop_all_fail {ok : Nat → Bool} (h : ∀ n, ok n = false) :
    ∀ (fuel a : Nat),
      sendLoop ok a fuel = { delivered := false, sleptSeconds := 2 * fuel } := by
  intro fuel
  induction fuel with
  | zero => intro a; rfl
  | succ n ih =>
      intro a
      rw [sendLoop, h a, if_neg (by simp)]
      simp [ih (a + 1)]
      ring

/-! ### Delivered-set lemmas -/

theorem loadDeliveredIds_updateMatching {s : Store} {q : String × Doc → Bool}
    {f : Doc → Doc} (hq : ∀ p, q p = true → p.2.sentAt = none)
    (hf : ∀ d, (f d).sentAt = d.sentAt) :
    loadDeliveredIds (updateMatching s q f) = loadDeliveredIds s := by
  induction s with
  | nil => rfl
  | cons p rest ih =>
      obtain ⟨k, e⟩ := p
      by_cases hqh : q (k, e) = true
      · have he : e.sentAt = none := hq (k, e) hqh
        have hfe : (f e).sentAt = none := by rw [hf, he]
        rw [updateMatching, if_pos hqh]
        simp [loadDeliveredIds, List.filter_cons, he, hfe]
      · rw [updateMatching, if_neg hqh]
        simp only [loadDeliveredIds, List.filter_cons] at ih ⊢
        by_cases he : e.sentAt.isSome = true
        · simp [he, ih]
        · simp only [Bool.not_eq_true] at he
          simp [he, ih]

theorem loadDeliveredIds_claimStore (s : Store) (i : String) (t : Int) :
    loadDeliveredIds (claimStore s i t) = loadDeliveredIds s := by
  unfold claimStore tryClaim
  by_cases h1 : s.any (claimFilter i (t - STALENESS)) = true
  · rw [if_pos h1]
    exact loadDeliveredIds_updateMatching
      (fun p hp => by
        simp only [claimFilter, Bool.and_eq_true] at hp
        exact Option.isNone_iff_eq_none.mp
          (by simp only [claimMatches, Bool.and_eq_true] at hp; exact hp.2.1))
      (fun d => rfl)
  · rw [if_neg h1]
    by_cases h2 : hasId s i = true
    · simp [h2]
    · simp only [Bool.not_eq_true] at h2
      simp only [h2, Bool.false_eq_true, if_false]
      simp [loadDeliveredIds, List.filter_append]

theorem mem_loadDeliveredIds_replaceOne {s : Store} {i x : String} {d : Doc}
    (hsent : d.sentAt.isSome = true) :
    x ∈ loadDeliveredIds (replaceOne s i d) ↔ x = i ∨ x ∈ loadDeliveredIds s := by
  induction s with
  | nil => simp [replaceOne, loadDeliveredIds, List.filter_cons, hsent]
  | cons p rest ih =>
      obtain ⟨k, e⟩ := p
      by_cases hk : k = i
      · subst hk
        rw [replaceOne, if_pos rfl]
        by_cases he : e.sentAt.isSome = true
        · simp [loadDeliveredIds, List.filter_cons, hsent, he]
        · simp only [Bool.not_eq_true] at he
          simp [loadDeliveredIds, List.filter_cons, hsent, he]
      · rw [replaceOne, if_neg hk]
        by_cases he : e.sentAt.isSome = true
        · simp only [loadDeliveredIds, List.filter_cons, he, if_pos] at ih ⊢
          simp at ih ⊢
          rw [ih]
          tauto
        · simp only [Bool.not_eq_true] at he
          simp only [loadDeliveredIds, List.filter_cons, he] at ih ⊢
          simp at ih ⊢
          exact ih

theorem mem_loadDeliveredIds_runOps (ops : List (String × StoreOp)) :
    ∀ (s : Store) (x : String),
      x ∈ loadDeliveredIds (runOps s ops) ↔
        x ∈ commitIds ops ∨ x ∈ loadDeliveredIds s := by
  induction ops with
  | nil => intro s x; simp [runOps, commitIds]
  | cons op ops ih =>
      intro s x
      obtain ⟨i, o⟩ := op
      cases o with
      | claimOp t =>
          rw [runOps, commitIds]
          rw [ih, applyOp, loadDeliveredIds_claimStore]
      | commitOp f t =>
          rw [runOps, commitIds]
          rw [ih]
          have : x ∈ loadDeliveredIds (applyOp s (i, StoreOp.commitOp f t)) ↔
              x = i ∨ x ∈ loadDeliveredIds s :=
            mem_loadDeliveredIds_replaceOne rfl
          rw [this]
          simp only [List.mem_cons]
          tauto

/-! ### Mutual exclusion of claims -/

theorem runClaims_zero_of_fresh {i : String} :
    ∀ (ts : List Int) (s : Store) (d : Doc) (r : Int), UniqueIds s →
      findDoc s i = some d → d.reserved_at = some r →
      (∀ t ∈ ts, t ≤ r + STALENESS) → runClaims s i ts = 0 := by
  intro ts
  induction ts with
  | nil => intro s d r _ _ _ _; rfl
  | cons t ts ih =>
      intro s d r huniq hfind hres hwin
      have hwt : t ≤ r + STALENESS := hwin t (List.mem_cons_self _ _)
      have hnlt : ¬ (r < t - STALENESS) := by
        unfold STALENESS at hwt ⊢
        omega
      have hm : claimMatches (t - STALENESS) d = false := by
        unfold claimMatches
        rw [hres]
        simp [hnlt]
      have hdk := tryClaim_dupKey huniq hfind hm
      simp only [runClaims, hdk]
      exact ih s d r huniq hfind hres
        (fun u hu => hwin u (List.mem_cons_of_mem _ hu))

/-- C1: for every sequence of `tryClaim` calls on the same id whose
claim times all lie within one 3-minute staleness window, starting from
any store satisfying the unique-index invariant and with no intervening
commit or release, at most one call succeeds; and two callers hitting
an empty store with the same `now` observe exactly one success. -/
theorem tryClaim_mutual_exclusion :
    (∀ (s : Store) (i : String) (ts : List Int), UniqueIds s →
        (∀ a ∈ ts, ∀ b ∈ ts, a ≤ b + STALENESS) →
        runClaims s i ts ≤ 1) ∧
    (∀ (i : String) (t : Int), runClaims [] i [t, t] = 1) := by
  constructor
  · intro s i ts
    induction ts generalizing s with
    | nil => intro _ _; simp [runClaims]
    | cons t ts ih =>
        intro huniq hwin
        have hwin' : ∀ a ∈ ts, ∀ b ∈ ts, a ≤ b + STALENESS :=
          fun a ha b hb =>
            hwin a (List.mem_cons_of_mem _ ha) b (List.mem_cons_of_mem _ hb)
        by_cases hany : s.any (claimFilter i (t - STALENESS)) = true
        · obtain ⟨p, hp, hfp⟩ := List.any_eq_true.mp hany
          obtain ⟨k, d⟩ := p
          simp only [claimFilter, Bool.and_eq_true, decide_eq_true_eq] at hfp
          obtain ⟨hk, hm⟩ := hfp
          subst hk
          have hfind : findDoc s k = some d := findDoc_of_mem_uniq huniq hp
          have hmt := tryClaim_matched hfind hm
          simp only [runClaims, hmt]
          have hz : runClaims
              (updateMatching s (claimFilter k (t - STALENESS))
                (fun e => { e with reserved_at := some t })) k ts = 0 :=
            runClaims_zero_of_fresh ts _ { d with reserved_at := some t } t
              (uniqueIds_updateMatching huniq _ _)
              (findDoc_updateMatching_of_match hfind hm _)
              rfl
              (fun u hu =>
                hwin u (List.mem_cons_of_mem _ hu) t (List.mem_cons_self _ _))
          rw [hz]
        · rw [Bool.not_eq_true] at hany
          by_cases hhas : hasId s i = true
          · have hdk : tryClaim s i t = .dupKey := by
              simp [tryClaim, hany, hhas]
            simp only [runClaims, hdk]
            exact ih s huniq hwin'
          · rw [Bool.not_eq_true] at hhas
            have hup := tryClaim_upsert t hhas
            simp only [runClaims, hup]
            have hfind' : findDoc (s ++ [(i, ({ reserved_at := some t } : Doc))]) i
                = some { reserved_at := some t } := by
              rw [findDoc_append_left_none ((findDoc_none_iff s i).mpr hhas)]
              simp [findDoc]
            have hz : runClaims (s ++ [(i, ({ reserved_at := some t } : Doc))]) i ts = 0 :=
              runClaims_zero_of_fresh ts _ { reserved_at := some t } t
                (uniqueIds_append_fresh _ huniq hhas)
                hfind'
                rfl
                (fun u hu =>
                  hwin u (List.mem_cons_of_mem _ hu) t (List.mem_cons_self _ _))
            rw [hz]
  · intro i t
    have h0 : hasId ([] : Store) i = false := rfl
    have hup := tryClaim_upsert t h0
    simp only [runClaims, hup, List.nil_append]
    have huniq1 : UniqueIds [(i, ({ reserved_at := some t } : Doc))] := by
      unfold UniqueIds
      simp
    have hfind1 : findDoc [(i, ({ reserved_at := some t } : Doc))] i
        = some { reserved_at := some t } := by
      simp [findDoc]
    have hnlt : ¬ (t < t - STALENESS) := by
      unfold STALENESS
      omega
    have hm : claimMatches (t - STALENESS) ({ reserved_at := some t } : Doc) = false := by
      unfold claimMatches
      simp [hnlt]
    have hdk := tryClaim_dupKey huniq1 hfind1 hm
    simp only [runClaims, hdk]

/-- C1 witness: a concrete two-caller race at time 0 on an empty store
with the id `"eq1"`. -/
theorem tryClaim_mutual_exclusion_witness :
    runClaims [] "eq1" [0, 0] ≤ 1 ∧ runClaims [] "eq1" [0, 0] = 1 :=
  ⟨tryClaim_mutual_exclusion.1 [] "eq1" [0, 0] (by decide)
      (by intro a ha b hb; fin_cases ha <;> fin_cases hb <;> decide),
    tryClaim_mutual_exclusion.2 "eq1" 0⟩

/-- C2: what the code actually does on the spec's failing inputs.  On a
record with `sentAt` set — and likewise on a live (non-stale) claim —
the claiming `update_one` does not return a graceful "matched 0":
its upsert insert collides with the unique index on "id" and raises
`DuplicateKeyError`, before the `try` block of line 382, so the
candidate iteration ends in a batch-aborting error rather than an
informational skip. -/
theorem tryClaim_existing_record_raises :
    tryClaim terminalStore "us1000abcd" 5000 = .dupKey ∧
    tryClaim liveStore "us1000abcd" 1060 = .dupKey ∧
    (processCandidate { sentIds := [], reservedIds := [], store := liveStore }
        { id := "us1000abcd", isEarthquake := true, now := 1060,
          renderOk := true, sendOk := fun _ => true, fields := sampleFields,
          sentNow := 1070, elapsedAfter := 0 }).2 = .batchError := by
  refine ⟨by decide, by decide, ?_⟩
  decide

/-- C3: a claim whose `reserved_at` is strictly older than `now` minus
the 3-minute staleness window is reclaimable: a second caller's
`tryClaim` succeeds and overwrites `reserved_at` with `now`, even
though the first claimant never released. -/
theorem tryClaim_stale_reclaim (s : Store) (i : String) (d : Doc) (r now : Int)
    (hfind : findDoc s i = some d) (hsent : d.sentAt = none)
    (hres : d.reserved_at = some r) (hstale : r < now - STALENESS) :
    claimOk (tryClaim s i now) = true ∧
    findDoc (claimStore s i now) i = some { d with reserved_at := some now } := by
  have hm : claimMatches (now - STALENESS) d = true := by
    unfold claimMatches
    rw [hres, hsent]
    simp [hstale]
  exact ⟨by rw [tryClaim_matched hfind hm]; rfl,
    findDoc_claimStore_matched hfind hm⟩

/-- C3 witness: a claim from time 0 has gone stale by time 200 and is
reclaimed then. -/
theorem tryClaim_stale_reclaim_witness :
    claimOk (tryClaim [("eq1", ({ reserved_at := some 0 } : Doc))] "eq1" 200) = true ∧
    findDoc (claimStore [("eq1", ({ reserved_at := some 0 } : Doc))] "eq1" 200) "eq1"
      = some { reserved_at := some 200 } :=
  tryClaim_stale_reclaim [("eq1", { reserved_at := some 0 })] "eq1"
    { reserved_at := some 0 } 0 200 (by decide) rfl rfl (by decide)

/-- C5: `commit` is idempotent — committing the same data twice leaves
the same terminal record, the record equals the full payload plus
`sentAt`, `isDelivered` holds afterwards, and committing into an empty
store (no prior record) works via the upsert. -/
theorem commit_idempotent (s : Store) (i : String) (f : EventFields) (now : Int) :
    commit (commit s i f now) i f now = commit s i f now ∧
    findDoc (commit s i f now) i
      = some { reserved_at := none, sentAt := some now, payload := some f } ∧
    isDelivered (commit s i f now) i = true ∧
    commit [] i f now
      = [(i, { reserved_at := none, sentAt := some now, payload := some f })] := by
  unfold commit
  refine ⟨replaceOne_idem s i _, findDoc_replaceOne_self s i _, ?_, rfl⟩
  exact isDelivered_true_of_findDoc (findDoc_replaceOne_self s i _) rfl

/-- C6: helper — terminal documents survive the whole exit-time
cleanup, whatever ids it releases. -/
theorem mem_cleanup_of_terminal :
    ∀ (rids : List String) (s : Store) (k : String) (e : Doc),
      (k, e) ∈ s → e.sentAt ≠ none → (k, e) ∈ cleanup_reserved s rids := by
  intro rids
  induction rids with
  | nil => intro s k e hm _; exact hm
  | cons rid rest ih =>
      intro s k e hm ht
      exact ih _ k e (mem_releaseClaim_of_terminal hm ht) ht

/-- C6: `releaseClaim` on an id whose record is terminal (`sentAt`
set) is a no-op — the store, that record included, is left exactly as
it was — and exit-time cleanup (`cleanup_reserved`) likewise never
deletes a terminal record, whatever ids it releases. -/
theorem releaseClaim_terminal_noop (s : Store) (i : String) (d : Doc)
    (huniq : UniqueIds s) (hfind : findDoc s i = some d)
    (hterm : d.sentAt ≠ none) :
    releaseClaim s i = s ∧
    (∀ (rids : List String) (k : String) (e : Doc),
        (k, e) ∈ s → e.sentAt ≠ none → (k, e) ∈ cleanup_reserved s rids) := by
  constructor
  · apply releaseClaim_eq_self
    intro e he
    have h2 := findDoc_of_mem_uniq huniq he
    rw [hfind] at h2
    injection h2 with h3
    rw [← h3]
    exact hterm
  · exact fun rids k e hm ht => mem_cleanup_of_terminal rids s k e hm ht

/-- C6 witness: releasing the terminal id `"us1000abcd"` changes
nothing, in direct release and in exit-time cleanup alike. -/
theorem releaseClaim_terminal_noop_witness :
    releaseClaim terminalStore "us1000abcd" = terminalStore ∧
    ("us1000abcd", ({ sentAt := some 0, payload := some sampleFields } : Doc))
      ∈ cleanup_reserved terminalStore ["us1000abcd", "other"] := by
  have h := releaseClaim_terminal_noop terminalStore "us1000abcd"
    { sentAt := some 0, payload := some sampleFields }
    (by decide) (by decide) (by decide)
  exact ⟨h.1, h.2 ["us1000abcd", "other"] _ _ (by decide) (by decide)⟩

/-- C10: `earthquake_emoji` is total over NaN, infinities and finite
magnitudes, always returns one of the nine severity strings, returns
the invalid marker exactly when the IEEE comparison `magnitude < 0`
holds — so for NaN, where every threshold comparison is false, it
returns the top (catastrophic) string, not the invalid marker. -/
theorem earthquake_emoji_total (m : Mag) :
    earthquake_emoji m ∈ emojiRange ∧
    (earthquake_emoji m = "❓" ↔ m.flt 0 = true) ∧
    earthquake_emoji Mag.nan = "🌎💥🌊" := by
  refine ⟨?_, ?_, rfl⟩
  · cases m with
    | nan => decide
    | ninf => decide
    | inf => decide
    | val q =>
        unfold earthquake_emoji emojiRange
        split_ifs <;> simp
  · cases m with
    | nan => decide
    | ninf => decide
    | inf => decide
    | val q =>
        unfold earthquake_emoji
        split_ifs with h1 <;> simp_all

/-- C4: after a successful claim, if every one of the 5 Telegram
attempts fails (with 2 seconds slept after each failed attempt), the
event ends as an event-level failure: the claim-only record (which has
no `sentAt`) is deleted so the id is immediately claimable again, no
commit is written, and the batch continues with the next candidate
instead of aborting. -/
theorem delivery_failure_releases_claim (st : MState) (c : Candidate)
    (huniq : UniqueIds st.store)
    (hmem : c.id ∉ st.sentIds)
    (hdel : isDelivered st.store c.id = false)
    (hclaim : claimOk (tryClaim st.store c.id c.now) = true)
    (hrender : c.renderOk = true)
    (hsend : ∀ n, c.sendOk n = false) :
    (processCandidate st c).2 = .eventFailed ∧
    sendToTelegram c.sendOk 5 = { delivered := false, sleptSeconds := 10 } ∧
    findDoc (processCandidate st c).1.store c.id = none ∧
    isDelivered (processCandidate st c).1.store c.id = false ∧
    (∀ t, claimOk (tryClaim (processCandidate st c).1.store c.id t) = true) ∧
    (c.isEarthquake = true → ∀ rest,
      (runBatch st true (c :: rest)).2
        = .eventFailed :: (runBatch (processCandidate st c).1 true rest).2) := by
  have hsendres : sendToTelegram c.sendOk 5
      = { delivered := false, sleptSeconds := 10 } := by
    rw [sendToTelegram, sendLoop_all_fail hsend 5 0]
  have hcond : (c.renderOk && (sendToTelegram c.sendOk 5).delivered) = false := by
    rw [hsendres]
    simp
  -- the store immediately after the successful claim
  have hkey : ∃ s', (tryClaim st.store c.id c.now = .matched s' ∨
        tryClaim st.store c.id c.now = .upserted s') ∧
      (∃ d', findDoc s' c.id = some d' ∧ d'.sentAt = none) ∧ UniqueIds s' := by
    by_cases hany : st.store.any (claimFilter c.id (c.now - STALENESS)) = true
    · obtain ⟨p, hp, hfp⟩ := List.any_eq_true.mp hany
      obtain ⟨k, d⟩ := p
      simp only [claimFilter, Bool.and_eq_true, decide_eq_true_eq] at hfp
      obtain ⟨hk, hm⟩ := hfp
      subst hk
      have hfind : findDoc st.store c.id = some d := findDoc_of_mem_uniq huniq hp
      refine ⟨_, Or.inl (tryClaim_matched hfind hm),
        ⟨{ d with reserved_at := some c.now },
          findDoc_updateMatching_of_match hfind hm _, ?_⟩,
        uniqueIds_updateMatching huniq _ _⟩
      simp only [claimMatches, Bool.and_eq_true] at hm
      exact Option.isNone_iff_eq_none.mp hm.1
    · rw [Bool.not_eq_true] at hany
      by_cases hhas : hasId st.store c.id = true
      · exfalso
        have : tryClaim st.store c.id c.now = .dupKey := by
          simp [tryClaim, hany, hhas]
        rw [this] at hclaim
        exact Bool.false_ne_true hclaim
      · rw [Bool.not_eq_true] at hhas
        refine ⟨_, Or.inr (tryClaim_upsert c.now hhas),
          ⟨{ reserved_at := some c.now }, ?_, rfl⟩,
          uniqueIds_append_fresh _ huniq hhas⟩
        rw [findDoc_append_left_none ((findDoc_none_iff _ _).mpr hhas)]
        simp [findDoc]
  obtain ⟨s', hclaimres, ⟨d', hfd', hsent'⟩, huniq'⟩ := hkey
  -- the iteration produced by processCandidate
  have hfinal : processCandidate st c =
      ({ st with
          store := releaseClaim s' c.id,
          reservedIds := (st.reservedIds.insert c.id).erase c.id },
        .eventFailed) := by
    rcases hclaimres with h | h <;>
      simp [processCandidate, hmem, hdel, h, processClaimed, hcond]
  have hrel : hasId (releaseClaim s' c.id) c.id = false :=
    hasId_releaseClaim_false huniq' hfd' hsent'
  have hstore : (processCandidate st c).1.store = releaseClaim s' c.id := by
    rw [hfinal]
  refine ⟨by rw [hfinal], hsendres, ?_, ?_, ?_, ?_⟩
  · rw [hstore]
    exact (findDoc_none_iff _ _).mpr hrel
  · rw [hstore]
    exact isDelivered_false_of_hasId_false hrel
  · intro t
    rw [hstore, tryClaim_upsert t hrel]
    rfl
  · intro hEq rest
    have hpair : processCandidate st c
        = ((processCandidate st c).1, CandOutcome.eventFailed) := by
      rw [hfinal]
    conv_lhs => rw [runBatch]
    rw [hpair]
    simp [hEq]

/-- C4 witness: a fresh event on an empty store whose five delivery
attempts all fail. -/
theorem delivery_failure_releases_claim_witness :
    (processCandidate emptyState failCand).2 = .eventFailed ∧
    findDoc (processCandidate emptyState failCand).1.store "us1000abcd" = none ∧
    claimOk (tryClaim (processCandidate emptyState failCand).1.store
      "us1000abcd" 2000) = true := by
  have h := delivery_failure_releases_claim emptyState failCand
    (by decide) (by decide) (by decide) (by decide) rfl (fun n => rfl)
  exact ⟨h.1, h.2.2.1, h.2.2.2.2.1 2000⟩

/-- C7: starting from an empty store, after a history of commits for
distinct ids interleaved with arbitrary claim attempts (claim-only
records) and no other commits, `loadDeliveredIds` returns exactly the
committed ids, and no others. -/
theorem loadDeliveredIds_exact (ops : List (String × StoreOp)) (x : String)
    (hnodup : (commitIds ops).Nodup) :
    x ∈ loadDeliveredIds (runOps [] ops) ↔ x ∈ commitIds ops := by
  rw [mem_loadDeliveredIds_runOps]
  simp [loadDeliveredIds]

/-- C7 witness: the two committed ids of `sampleOps` are reported and
the claim-only id `"a"` is not. -/
theorem loadDeliveredIds_exact_witness :
    ("b" ∈ loadDeliveredIds (runOps [] sampleOps) ↔ "b" ∈ commitIds sampleOps) ∧
    ("a" ∈ loadDeliveredIds (runOps [] sampleOps) ↔ "a" ∈ commitIds sampleOps) :=
  ⟨loadDeliveredIds_exact sampleOps "b" (by decide),
    loadDeliveredIds_exact sampleOps "a" (by decide)⟩

/-- C8 counterexample: with failures on cycles 1, 3 and 5 — three
cumulative but never three consecutive failures — the code's top-level
loop stops after the fifth cycle (its `retries` counter is never reset
on success), while the loop the spec describes (counter of consecutive
failures, reset by success) runs all six scheduled cycles. -/
theorem runTop_not_consecutive_cex :
    runTop true 0 alternatingCycles = 5 ∧
    runTopSpecConsecutive true 0 alternatingCycles = 6 := by
  exact ⟨by decide, by decide⟩


/-- Unfolding step for the top-level loop on a cons cell. -/
theorem runTop_cons (isLocal : Bool) (r : Nat) (e : Int) (ok : Bool)
    (rest : List (Int × Bool)) :
    runTop isLocal r ((e, ok) :: rest) =
      if !isLocal && MAX_RUN_TIME ≤ e then 0
      else if ok then 1 + runTop isLocal r rest
      else if 3 ≤ r + 1 then 1
      else 1 + runTop isLocal (r + 1) rest := rfl

/-- C8 (amended): the top-level loop logs each failed cycle and
increments a failure counter that is never reset, so it stops once
three cumulative (not necessarily consecutive) failures have occurred:
stopping before the schedule is exhausted in continuous mode means
exactly three failures were counted; with fewer than three failures in
continuous mode every scheduled cycle runs; the budget changes nothing
while the clock stays under it; and in time-boxed mode the loop stops
at the `while` test once the budget is reached. -/
theorem runTop_cumulative_failure_stop :
    (∀ (cycles : List (Int × Bool)) (r : Nat), r < 3 →
        runTop true r cycles < cycles.length →
        (cycles.take (runTop true r cycles)).countP (fun p => !p.2) + r = 3) ∧
    (∀ (cycles : List (Int × Bool)) (r : Nat),
        cycles.countP (fun p => !p.2) + r < 3 →
        runTop true r cycles = cycles.length) ∧
    (∀ (cycles : List (Int × Bool)) (r : Nat),
        (∀ p ∈ cycles, p.1 < MAX_RUN_TIME) →
        runTop false r cycles = runTop true r cycles) ∧
    (∀ (e : Int) (ok : Bool) (rest : List (Int × Bool)) (r : Nat),
        MAX_RUN_TIME ≤ e → runTop false r ((e, ok) :: rest) = 0) := by
  refine ⟨?_, ?_, ?_, ?_⟩
  · intro cycles
    induction cycles with
    | nil =>
        intro r _ h
        simp [runTop] at h
    | cons p rest ih =>
        intro r hr h
        obtain ⟨e, ok⟩ := p
        rw [runTop_cons] at h ⊢
        simp only [Bool.not_true, Bool.false_and, Bool.false_eq_true,
          if_false] at h ⊢
        by_cases hok : ok = true
        · subst hok
          rw [if_pos rfl] at h ⊢
          rw [Nat.add_comm 1 (runTop true r rest)] at h ⊢
          rw [List.take_succ_cons, List.countP_cons]
          simp only [List.length_cons] at h
          have hlt : runTop true r rest < rest.length := by omega
          have hih := ih r hr hlt
          simp only [Bool.not_true, Bool.false_eq_true, if_false]
          omega
        · rw [Bool.not_eq_true] at hok
          subst hok
          rw [if_neg (by simp)] at h ⊢
          by_cases hr3 : 3 ≤ r + 1
          · rw [if_pos hr3] at h ⊢
            rw [List.take_succ_cons, List.take_zero, List.countP_cons,
              List.countP_nil]
            simp only [Bool.not_false, if_true]
            omega
          · rw [if_neg hr3] at h ⊢
            rw [Nat.add_comm 1 (runTop true (r + 1) rest)] at h ⊢
            rw [List.take_succ_cons, List.countP_cons]
            simp only [List.length_cons] at h
            have hlt : runTop true (r + 1) rest < rest.length := by omega
            have hih := ih (r + 1) (by omega) hlt
            simp only [Bool.not_false, if_true]
            omega
  · intro cycles
    induction cycles with
    | nil => intro r _; rfl
    | cons p rest ih =>
        intro r hcnt
        obtain ⟨e, ok⟩ := p
        rw [List.countP_cons] at hcnt
        rw [runTop_cons]
        simp only [Bool.not_true, Bool.false_and, Bool.false_eq_true, if_false,
          List.length_cons]
        by_cases hok : ok = true
        · subst hok
          rw [if_pos rfl]
          simp only [Bool.not_true, Bool.false_eq_true, if_false] at hcnt
          have hih := ih r (by omega)
          omega
        · rw [Bool.not_eq_true] at hok
          subst hok
          rw [if_neg (by simp)]
          simp only [Bool.not_false, if_true] at hcnt
          have hr3 : ¬ 3 ≤ r + 1 := by omega
          rw [if_neg hr3]
          have hih := ih (r + 1) (by omega)
          omega
  · intro cycles
    induction cycles with
    | nil => intro r _; rfl
    | cons p rest ih =>
        intro r hcl
        obtain ⟨e, ok⟩ := p
        have he : e < MAX_RUN_TIME := hcl (e, ok) (List.mem_cons_self _ _)
        have hne : ¬ MAX_RUN_TIME ≤ e := by omega
        have ihr := fun r => ih r (fun p hp => hcl p (List.mem_cons_of_mem _ hp))
        have hc1 : (!false && decide (MAX_RUN_TIME ≤ e)) = false := by
          simp [hne]
        have hc2 : (!true && decide (MAX_RUN_TIME ≤ e)) = false := by
          simp
        rw [runTop_cons, runTop_cons, hc1, hc2]
        simp only [Bool.false_eq_true, if_false]
        by_cases hok : ok = true
        · subst hok
          rw [if_pos rfl, if_pos rfl, ihr r]
        · rw [Bool.not_eq_true] at hok
          subst hok
          simp only [Bool.false_eq_true, if_false]
          by_cases hr3 : 3 ≤ r + 1
          · rw [if_pos hr3, if_pos hr3]
          · rw [if_neg hr3, if_neg hr3, ihr (r + 1)]
  · intro e ok rest r h
    rw [runTop_cons]
    rw [if_pos (by simp [h])]

/-- C8 witness: concrete instantiations of each conjunct of the
amended top-level-loop theorem. -/
theorem runTop_cumulative_failure_stop_witness :
    (([((0 : Int), false), (0, false), (0, false), (0, true)].take
        (runTop true 0 [(0, false), (0, false), (0, false), (0, true)])).countP
        (fun p => !p.2) + 0 = 3) ∧
    runTop true 0 [((0 : Int), true)] = 1 ∧
    runTop false 0 [((0 : Int), true)] = runTop true 0 [((0 : Int), true)] ∧
    runTop false 0 [((300 : Int), true)] = 0 := by
  refine ⟨?_, ?_, ?_, ?_⟩
  · exact runTop_cumulative_failure_stop.1
      [(0, false), (0, false), (0, false), (0, true)] 0 (by decide) (by decide)
  · exact runTop_cumulative_failure_stop.2.1 [(0, true)] 0 (by decide)
  · exact runTop_cumulative_failure_stop.2.2.1 [(0, true)] 0
      (by intro p hp; fin_cases hp; decide)
  · exact runTop_cumulative_failure_stop.2.2.2 300 true [] 0 (by decide)

/-- C9 counterexample: in time-boxed mode the budget check of lines
429-434 is bypassed by `continue`: the first candidate is skipped as
already delivered while the wall clock already reads 400 s (past the
300 s budget), yet the second candidate is still fully rendered,
delivered and committed; the loop the spec describes — budget checked
between all candidates — stops after the skip and starts no new
candidate. -/
theorem runBatch_budget_bypass_cex :
    MAX_RUN_TIME ≤ lateSkipCand.elapsedAfter ∧
    (runBatch lateState false [lateSkipCand, okCand]).2
      = [.skippedDb, .processedOk] ∧
    isDelivered (runBatch lateState false [lateSkipCand, okCand]).1.store "ev2"
      = true ∧
    (runBatchSpecBudget lateState false [lateSkipCand, okCand]).2
      = [.skippedDb] := by
  exact ⟨by decide, by decide, by decide, by decide⟩

/-- C9 (amended): the wall-clock budget binds only after candidate
iterations that reached the claim attempt: in local mode every
candidate is attempted (no budget); in time-boxed mode an iteration
that was processed (or failed) past the budget completes — it is never
interrupted — and no later candidate starts, while one under the
budget lets the loop continue; but a candidate skipped by `continue`
never triggers the check, whatever the clock says. -/
theorem runBatch_budget_after_claim_attempts :
    (∀ (st : MState) (cands : List Candidate),
        CandOutcome.batchError ∉ (runBatch st true cands).2 →
        (runBatch st true cands).2.length = cands.length) ∧
    (∀ (st : MState) (c : Candidate) (rest : List Candidate),
        c.isEarthquake = true →
        ((processCandidate st c).2 = .processedOk ∨
          (processCandidate st c).2 = .eventFailed) →
        MAX_RUN_TIME ≤ c.elapsedAfter →
        runBatch st false (c :: rest)
          = ((processCandidate st c).1, [(processCandidate st c).2])) ∧
    (∀ (st : MState) (c : Candidate) (rest : List Candidate),
        c.isEarthquake = true →
        ((processCandidate st c).2 = .processedOk ∨
          (processCandidate st c).2 = .eventFailed) →
        c.elapsedAfter < MAX_RUN_TIME →
        (runBatch st false (c :: rest)).2
          = (processCandidate st c).2
              :: (runBatch (processCandidate st c).1 false rest).2) ∧
    (∀ (st : MState) (c : Candidate) (rest : List Candidate),
        c.isEarthquake = true →
        ((processCandidate st c).2 = .skippedMem ∨
          (processCandidate st c).2 = .skippedDb) →
        (runBatch st false (c :: rest)).2
          = (processCandidate st c).2
              :: (runBatch (processCandidate st c).1 false rest).2) := by
  refine ⟨?_, ?_, ?_, ?_⟩
  · intro st cands
    induction cands generalizing st with
    | nil => intro _; rfl
    | cons c cands ih =>
        intro hne
        rcases hpc : processCandidate st c with ⟨st', o⟩
        by_cases hEq : c.isEarthquake = true
        · by_cases hbe : o = CandOutcome.batchError
          · exfalso
            apply hne
            simp [runBatch, hEq, hpc, hbe]
          · by_cases hsk : o = CandOutcome.skippedMem ∨ o = CandOutcome.skippedDb
            · have hstep : (runBatch st true (c :: cands)).2
                  = o :: (runBatch st' true cands).2 := by
                simp [runBatch, hEq, hpc, hbe, hsk]
              rw [hstep] at hne ⊢
              simp only [List.mem_cons, not_or] at hne
              simp [ih st' hne.2]
            · have hstep : (runBatch st true (c :: cands)).2
                  = o :: (runBatch st' true cands).2 := by
                simp [runBatch, hEq, hpc, hbe, hsk]
              rw [hstep] at hne ⊢
              simp only [List.mem_cons, not_or] at hne
              simp [ih st' hne.2]
        · rw [Bool.not_eq_true] at hEq
          have hstep : (runBatch st true (c :: cands)).2
              = CandOutcome.notEarthquake :: (runBatch st true cands).2 := by
            simp [runBatch, hEq]
          rw [hstep] at hne ⊢
          simp only [List.mem_cons, not_or] at hne
          simp [ih st hne.2]
  · intro st c rest hEq ho helapsed
    rcases hpc : processCandidate st c with ⟨st', o⟩
    have ho' : o = CandOutcome.processedOk ∨ o = CandOutcome.eventFailed := by
      rw [hpc] at ho
      exact ho
    rcases ho' with h | h <;> subst h <;>
      simp [runBatch, hEq, hpc, helapsed]
  · intro st c rest hEq ho helapsed
    rcases hpc : processCandidate st c with ⟨st', o⟩
    have ho' : o = CandOutcome.processedOk ∨ o = CandOutcome.eventFailed := by
      rw [hpc] at ho
      exact ho
    have hne : ¬ MAX_RUN_TIME ≤ c.elapsedAfter := by omega
    rcases ho' with h | h <;> subst h <;>
      simp [runBatch, hEq, hpc, hne]
  · intro st c rest hEq ho
    rcases hpc : processCandidate st c with ⟨st', o⟩
    have ho' : o = CandOutcome.skippedMem ∨ o = CandOutcome.skippedDb := by
      rw [hpc] at ho
      exact ho
    rcases ho' with h | h <;> subst h <;>
      simp [runBatch, hEq, hpc]

/-- C9 witness: concrete instantiations of each conjunct of the
amended budget theorem. -/
theorem runBatch_budget_after_claim_attempts_witness :
    (runBatch emptyState true [okCand]).2.length = 1 ∧
    runBatch emptyState false [lateSkipCand]
      = ((processCandidate emptyState lateSkipCand).1,
          [(processCandidate emptyState lateSkipCand).2]) ∧
    (runBatch emptyState false [okCand]).2
      = (processCandidate emptyState okCand).2
          :: (runBatch (processCandidate emptyState okCand).1 false []).2 ∧
    (runBatch lateState false [lateSkipCand]).2
      = (processCandidate lateState lateSkipCand).2
          :: (runBatch (processCandidate lateState lateSkipCand).1 false []).2 := by
  refine ⟨?_, ?_, ?_, ?_⟩
  · exact runBatch_budget_after_claim_attempts.1 emptyState [okCand] (by decide)
  · exact runBatch_budget_after_claim_attempts.2.1 emptyState lateSkipCand []
      rfl (Or.inl (by decide)) (by decide)
  · exact runBatch_budget_after_claim_attempts.2.2.1 emptyState okCand []
      rfl (Or.inl (by decide)) (by decide)
  · exact runBatch_budget_after_claim_attempts.2.2.2 lateState lateSkipCand []
      rfl (Or.inr (by decide))

end Quake
